import Mathlib

/-
Verification of the ImageWatch interactive image viewer (src/main.py).

The development shallowly embeds the viewer core: the LRU tile cache
(TileCache), the grayscale classifier (GraphicsImageView._detect_grayscale),
the view-transform state machine (enter_pixel_mode / exit_pixel_mode /
wheelEvent), the visible-tile reconciliation (_update_visible_tiles and
_visible_tile_range), the pixel probe (_emit_pixel_info_at_viewport_point)
and image loading (load_image).

Modelling conventions:
- Python floats are modelled as exact rationals.
- QTransform is modelled by a uniform scale plus a translation, which is
  the only shape of transform the viewer ever builds (scale and translate
  compose in Qt by m11 := m11 * f and dx := dx + m11 * a).
- QGraphicsView scrolling is an additive device-space offset: a viewport
  point p corresponds to device point p + scroll, and mapToScene inverts
  the current transform on that, matching the NoAnchor configuration.
- Timers, repaints, signal wiring and the Qt scene item list are not
  modelled; the tile_items dictionary mirrors exactly the set of tile
  items the code keeps in the scene.
- Integer viewport points (QPoint) are Int pairs; Python floor division
  is Int division (Euclidean, which rounds toward negative infinity for
  the positive divisors used here, exactly like Python).
-/

set_option maxHeartbeats 1000000

namespace ImageWatch

/-- Decoded pixel buffer: width, height and a per-pixel RGB accessor.
Models the Format RGB888 QImage the viewer stores after a load. -/
structure ImageBuf where
  w : Nat
  h : Nat
  pix : Nat → Nat → Nat × Nat × Nat

/-- A rendered tile bitmap, recorded by its device-pixel dimensions
(blockWidth * 64 by blockHeight * 64). -/
structure TileBmp where
  tw : Int
  th : Int
deriving DecidableEq, Repr

/-- Size in device pixels of one source pixel at maximal zoom (PIXEL_CELL). -/
def PIXEL_CELL : Int := 64

/-- Number of source pixels covered by one tile per axis (TILE_ORIG_PX). -/
def TILE_ORIG_PX : Int := 16

/-- Upper bound on the number of cached tiles (CACHE_MAX_TILES). -/
def CACHE_MAX_TILES : Nat := 200

/- ------------------------------------------------------------------
Association-list model of a Python dict (insertion order is irrelevant
to the claims; only key membership and the stored values matter).
------------------------------------------------------------------ -/

namespace Dict

variable {K V : Type} [DecidableEq K]

/-- Dictionary lookup on an association list. -/
def lookup (k : K) : List (K × V) → Option V
  | [] => none
  | kv :: rest => if kv.1 = k then some kv.2 else lookup k rest

/-- Dictionary assignment: replace the value at an existing key, or append. -/
def insertD (k : K) (v : V) : List (K × V) → List (K × V)
  | [] => [(k, v)]
  | kv :: rest => if kv.1 = k then (k, v) :: rest else kv :: insertD k v rest

/-- Dictionary deletion of a key. -/
def eraseD (k : K) : List (K × V) → List (K × V)
  | [] => []
  | kv :: rest => if kv.1 = k then eraseD k rest else kv :: eraseD k rest

end Dict

/- ------------------------------------------------------------------
TileCache (src/main.py lines 32-64): a dict plus an explicit recency
deque; the deque front is the least recently used key.
------------------------------------------------------------------ -/

/-- LRU tile cache: a key to bitmap dict plus a recency list whose head is
the least-recently-used key (models TileCache with its collections.deque). -/
structure TileCache (K V : Type) where
  max_tiles : Nat
  cache : List (K × V)
  order : List K

namespace TileCache

variable {K V : Type} [DecidableEq K]

/-- TileCache.get: on a hit, move the key to the most-recently-used end of
the recency list and return the cached bitmap; on a miss return none. -/
def get (c : TileCache K V) (k : K) : Option V × TileCache K V :=
  match Dict.lookup k c.cache with
  | some v => (some v, { c with order := c.order.erase k ++ [k] })
  | none => (none, c)

/-- The eviction loop of TileCache.put: while the recency list is longer
than max_tiles, pop its head and delete that key from the dict. -/
def evictLoop (max : Nat) : List K → List (K × V) → List K × List (K × V)
  | [], cache => ([], cache)
  | k :: rest, cache =>
    if rest.length + 1 > max then evictLoop max rest (Dict.eraseD k cache)
    else (k :: rest, cache)

/-- TileCache.put: remove the key from the recency list if present, store
the bitmap, append the key as most recently used, then evict from the
least-recently-used end until at most max_tiles entries remain. -/
def put (c : TileCache K V) (k : K) (v : V) : TileCache K V :=
  let order1 := if (Dict.lookup k c.cache).isSome then c.order.erase k else c.order
  let cache1 := Dict.insertD k v c.cache
  let p := evictLoop c.max_tiles (order1 ++ [k]) cache1
  { max_tiles := c.max_tiles, cache := p.2, order := p.1 }

/-- TileCache.clear. -/
def clear (c : TileCache K V) : TileCache K V := { c with cache := [], order := [] }

/-- A fresh cache as built in GraphicsImageView.__init__. -/
def empty (max : Nat) : TileCache K V := { max_tiles := max, cache := [], order := [] }

/-- Keys currently stored in the dict. -/
def keys (c : TileCache K V) : List K := c.cache.map Prod.fst

/-- Representation invariant linking dict and recency list: both are
duplicate-free and hold the same key set. -/
def Inv (c : TileCache K V) : Prop :=
  c.order.Nodup ∧ c.keys.Nodup ∧ ∀ a : K, a ∈ c.keys ↔ a ∈ c.order

end TileCache

/-- One externally visible cache operation. -/
inductive CacheOp (K V : Type) where
  | getOp (k : K)
  | putOp (k : K) (v : V)
  | clearOp

/-- Apply one cache operation (the value returned by get is discarded). -/
def applyCacheOp {K V : Type} [DecidableEq K] (c : TileCache K V) :
    CacheOp K V → TileCache K V
  | .getOp k => (c.get k).2
  | .putOp k v => c.put k v
  | .clearOp => c.clear

/-- Run a sequence of cache operations. -/
def runCacheOps {K V : Type} [DecidableEq K] (c : TileCache K V)
    (ops : List (CacheOp K V)) : TileCache K V :=
  ops.foldl applyCacheOp c

/- ------------------------------------------------------------------
Grayscale classification (src/main.py lines 189-210).
------------------------------------------------------------------ -/

/-- Sampling stride per axis: max(1, dimension // 100). -/
def stepOf (dim : Nat) : Nat := max 1 (dim / 100)

/-- Number of samples per axis, the length of range(0, dim, stepOf dim). -/
def sampleCount (dim : Nat) : Nat := (dim + stepOf dim - 1) / stepOf dim

/-- The sampled coordinates on one axis: range(0, dim, stepOf dim). -/
def sampleList (dim : Nat) : List Nat :=
  (List.range (sampleCount dim)).map (fun j => j * stepOf dim)

/-- True when a pixel has equal R, G and B channels. -/
def isGrayPix (c : Nat × Nat × Nat) : Bool := c.1 == c.2.1 && c.2.1 == c.2.2

/-- GraphicsImageView._detect_grayscale: scan the sample grid row by row and
report true unless some sampled pixel has unequal channels (the Python
double loop with its early break computes exactly this conjunction). -/
def detect_grayscale (img : ImageBuf) : Bool :=
  (sampleList img.h).all fun y => (sampleList img.w).all fun x => isGrayPix (img.pix x y)

/- ------------------------------------------------------------------
View transform and viewer state.
------------------------------------------------------------------ -/

/-- The view transform: uniform scale s with translation (dx, dy); a scene
point q maps to device point s * q + (dx, dy). -/
structure Transform where
  s : ℚ
  dx : ℚ
  dy : ℚ
deriving DecidableEq, Repr

namespace Transform

/-- The identity transform (resetTransform). -/
def identity : Transform := ⟨1, 0, 0⟩

/-- QGraphicsView.scale: QTransform.scale multiplies the scale entries and
leaves the translation untouched. -/
def scaleBy (t : Transform) (f : ℚ) : Transform := ⟨t.s * f, t.dx, t.dy⟩

/-- QGraphicsView.translate: QTransform.translate adds the scaled step to
the translation. -/
def translateBy (t : Transform) (a b : ℚ) : Transform :=
  ⟨t.s, t.dx + t.s * a, t.dy + t.s * b⟩

end Transform

/-- The state of GraphicsImageView that the verified operations touch. -/
structure ViewState where
  pixmap_item : Bool
  pixmap_visible : Bool
  orig_qimage : Option ImageBuf
  is_grayscale : Bool
  pixel_mode : Bool
  saved_transform : Option Transform
  saved_scale : Option ℚ
  transform : Transform
  scrollX : ℚ
  scrollY : ℚ
  viewportW : Int
  viewportH : Int
  tile_cache : TileCache (Int × Int) TileBmp
  tile_items : List ((Int × Int) × TileBmp)
  auto_fit_mode : Bool
  zooming : Bool
  smooth_enabled : Bool

/-- mapToScene on an exact device-space point: invert the transform after
adding the scroll offset. -/
def mapToSceneQ (st : ViewState) (p : ℚ × ℚ) : ℚ × ℚ :=
  (((p.1 + st.scrollX) - st.transform.dx) / st.transform.s,
   ((p.2 + st.scrollY) - st.transform.dy) / st.transform.s)

/-- mapToScene on an integer viewport point (QPoint). -/
def mapToSceneP (st : ViewState) (p : Int × Int) : ℚ × ℚ :=
  mapToSceneQ st ((p.1 : ℚ), (p.2 : ℚ))

/-- mapFromScene returning a QPoint: apply the transform, subtract the
scroll offset, and round each coordinate to the nearest integer. -/
def mapFromSceneP (st : ViewState) (q : ℚ × ℚ) : Int × Int :=
  (round (st.transform.s * q.1 + st.transform.dx - st.scrollX),
   round (st.transform.s * q.2 + st.transform.dy - st.scrollY))

/-- centerOn: choose the scroll offset that puts the given scene point at
the viewport center. -/
def centerOn (st : ViewState) (c : ℚ × ℚ) : ViewState :=
  { st with
    scrollX := st.transform.s * c.1 + st.transform.dx - (st.viewportW : ℚ) / 2,
    scrollY := st.transform.s * c.2 + st.transform.dy - (st.viewportH : ℚ) / 2 }

/-- GraphicsImageView._preserve_ref: recenter the view so the recorded
scene point returns to the given viewport point (only scrolling changes). -/
def preserve_ref (st : ViewState) (vp : Int × Int) (old_scene : ℚ × ℚ) : ViewState :=
  let new_vp := mapFromSceneP st old_scene
  let dxv := new_vp.1 - vp.1
  let dyv := new_vp.2 - vp.2
  let cx := st.viewportW / 2
  let cy := st.viewportH / 2
  let desired := (cx + dxv, cy + dyv)
  let desired_scene := mapToSceneP st desired
  centerOn st desired_scene

/- ------------------------------------------------------------------
Visible tile range and reconciliation (src/main.py lines 264-284, 344-385).
------------------------------------------------------------------ -/

/-- GraphicsImageView._visible_tile_range: map the viewport rectangle to
scene space (bounding rectangle of its four mapped corners), clamp to the
image, divide by the tile size and expand by the margin, clamping tile
indices to the image tile grid. Returns (tx0, tx1, ty0, ty1). -/
def visible_tile_range (st : ViewState) (margin : Int) : Int × Int × Int × Int :=
  match st.orig_qimage with
  | none => (0, -1, 0, -1)
  | some img =>
    let p1 := mapToSceneQ st (0, 0)
    let p2 := mapToSceneQ st ((st.viewportW : ℚ), 0)
    let p3 := mapToSceneQ st ((st.viewportW : ℚ), (st.viewportH : ℚ))
    let p4 := mapToSceneQ st (0, (st.viewportH : ℚ))
    let lo1 := min (min p1.1 p2.1) (min p3.1 p4.1)
    let to1 := min (min p1.2 p2.2) (min p3.2 p4.2)
    let ro1 := max (max p1.1 p2.1) (max p3.1 p4.1)
    let bo1 := max (max p1.2 p2.2) (max p3.2 p4.2)
    let iw : Int := img.w
    let ih : Int := img.h
    let left : Int := max 0 ⌊lo1⌋
    let top : Int := max 0 ⌊to1⌋
    let right : Int := min (iw - 1) ⌈ro1⌉
    let bottom : Int := min (ih - 1) ⌈bo1⌉
    let tx0 := max 0 (left / TILE_ORIG_PX - margin)
    let ty0 := max 0 (top / TILE_ORIG_PX - margin)
    let tx1 := min ((iw - 1) / TILE_ORIG_PX) (right / TILE_ORIG_PX + margin)
    let ty1 := min ((ih - 1) / TILE_ORIG_PX) (bottom / TILE_ORIG_PX + margin)
    (tx0, tx1, ty0, ty1)

/-- Integer interval [a, b] as a list. -/
def intRange (a b : Int) : List Int :=
  (List.range (b + 1 - a).toNat).map (fun i : Nat => a + (i : Int))

/-- The required tile-key set of _update_visible_tiles, enumerated in
row-major order (the Python code accumulates the same keys into a set). -/
def requiredList (st : ViewState) : List (Int × Int) :=
  let r := visible_tile_range st 1
  (intRange r.2.2.1 r.2.2.2).flatMap fun ty => (intRange r.1 r.2.1).map fun tx => (tx, ty)

/-- GraphicsImageView._make_tile_pixmap: render the tile at (tx, ty), or
none when the tile block clipped to the image is degenerate. -/
def makeTilePixmap (img : ImageBuf) (k : Int × Int) : Option TileBmp :=
  let iw : Int := img.w
  let ih : Int := img.h
  let x0 := k.1 * TILE_ORIG_PX
  let y0 := k.2 * TILE_ORIG_PX
  let w := min TILE_ORIG_PX (iw - x0)
  let h := min TILE_ORIG_PX (ih - y0)
  if w ≤ 0 ∨ h ≤ 0 then none
  else
    let tw := w * PIXEL_CELL
    let th := h * PIXEL_CELL
    if tw ≤ 0 ∨ th ≤ 0 then none else some ⟨tw, th⟩

/-- One iteration of the tile-creation loop of _update_visible_tiles: skip
keys that already have an item, otherwise fetch from the cache (promoting
the key) or render and insert into the cache, and record the addition.
The accumulator is (tile items, tile cache, keys added so far). -/
def addTileStep (img : ImageBuf)
    (acc : List ((Int × Int) × TileBmp) × TileCache (Int × Int) TileBmp × List (Int × Int))
    (key : Int × Int) :
    List ((Int × Int) × TileBmp) × TileCache (Int × Int) TileBmp × List (Int × Int) :=
  if (Dict.lookup key acc.1).isSome then acc
  else
    let g := acc.2.1.get key
    match g.1 with
    | some pix => (Dict.insertD key pix acc.1, g.2, acc.2.2 ++ [key])
    | none =>
      match makeTilePixmap img key with
      | none => (acc.1, g.2, acc.2.2)
      | some pix => (Dict.insertD key pix acc.1, (g.2).put key pix, acc.2.2 ++ [key])

/-- GraphicsImageView._update_visible_tiles, instrumented to also return
the list of removed keys and the list of added keys: a no-op unless an
image is loaded and pixel mode is active; otherwise drop every tile item
outside the required range and create every missing required tile. -/
def updateVisibleTilesDiff (st : ViewState) :
    ViewState × List (Int × Int) × List (Int × Int) :=
  match st.orig_qimage, st.pixel_mode with
  | none, _ => (st, [], [])
  | some _, false => (st, [], [])
  | some img, true =>
    let req := requiredList st
    let removed := (st.tile_items.filter fun kv => decide (kv.1 ∉ req)).map fun kv => kv.1
    let items1 := st.tile_items.filter fun kv => decide (kv.1 ∈ req)
    let r := req.foldl (addTileStep img) (items1, st.tile_cache, [])
    ({ st with tile_items := r.1, tile_cache := r.2.1 }, removed, r.2.2)

/-- The state part of _update_visible_tiles. -/
def updateVisibleTiles (st : ViewState) : ViewState :=
  (updateVisibleTilesDiff st).1

/- ------------------------------------------------------------------
Pixel-mode transitions (src/main.py lines 404-536).
------------------------------------------------------------------ -/

/-- Default reference viewport point: the explicit point if given, else
the viewport center. -/
def refOrCenter (st : ViewState) (ref : Option (Int × Int)) : Int × Int :=
  match ref with
  | some p => p
  | none => (st.viewportW / 2, st.viewportH / 2)

/-- GraphicsImageView.enter_pixel_mode: a no-op without an image or when
already in pixel mode; otherwise save the transform and its scale, snap
the transform to scale PIXEL_CELL, re-preserve the reference point, flip
to pixel mode, materialize the visible tiles, and hide the continuous
pixmap item. -/
def enter_pixel_mode (st : ViewState) (ref : Option (Int × Int)) : ViewState :=
  match st.orig_qimage with
  | none => st
  | some _ =>
    if st.pixel_mode then st
    else
      let refp := refOrCenter st ref
      let old_scene := mapToSceneP st refp
      let st1 := { st with saved_transform := some st.transform,
                           saved_scale := some st.transform.s }
      let st2 := { st1 with transform := ⟨(PIXEL_CELL : ℚ), 0, 0⟩ }
      let st3 := preserve_ref st2 refp old_scene
      let st4 := { st3 with pixel_mode := true }
      let st5 := updateVisibleTiles st4
      if st5.pixmap_item then { st5 with pixmap_visible := false } else st5

/-- GraphicsImageView.exit_pixel_mode: a no-op unless in pixel mode with an
image; otherwise remove all tile items, restore the saved transform (or
reset it when none was saved), re-preserve the reference point, re-show
the continuous pixmap item and return to normal mode. -/
def exit_pixel_mode (st : ViewState) (ref : Option (Int × Int)) : ViewState :=
  if st.pixel_mode then
    match st.orig_qimage with
    | none => st
    | some _ =>
      let refp := refOrCenter st ref
      let old_scene := mapToSceneP st refp
      let st1 := { st with tile_items := [] }
      let st2 :=
        match st.saved_transform with
        | some t0 => { st1 with transform := t0 }
        | none => { st1 with transform := Transform.identity }
      let st3 := preserve_ref st2 refp old_scene
      let st4 := if st3.pixmap_item then { st3 with pixmap_visible := true } else st3
      { st4 with pixel_mode := false }
  else st

/- ------------------------------------------------------------------
Image loading (src/main.py lines 147-187).
------------------------------------------------------------------ -/

/-- GraphicsImageView.load_image. A null buffer (absent, or with a zero
dimension) only pops a warning and returns; otherwise the scene, cache and
tile state are reset, the image installed, the grayscale flag computed,
the transform reset and auto-fit re-armed. The Bool result records
whether the load-failure warning was shown. -/
def load_image (st : ViewState) (qpixmap : Option ImageBuf) : ViewState × Bool :=
  match qpixmap with
  | none => (st, true)
  | some pm =>
    if pm.w = 0 ∨ pm.h = 0 then (st, true)
    else
      let st1 := { st with
        tile_cache := st.tile_cache.clear,
        tile_items := [],
        orig_qimage := none,
        pixel_mode := false,
        is_grayscale := false,
        pixmap_item := true,
        pixmap_visible := true }
      let st2 := { st1 with
        orig_qimage := some pm,
        is_grayscale := detect_grayscale pm }
      let st3 := { st2 with
        transform := Transform.identity,
        zooming := false,
        auto_fit_mode := true }
      (st3, false)

/- ------------------------------------------------------------------
Pixel probe (src/main.py lines 630-656).
------------------------------------------------------------------ -/

/-- The payload of the pixelInfoChanged signal. -/
inductive PixelValue where
  | gray (v : Nat)
  | rgb (r g b : Nat)
deriving DecidableEq, Repr

/-- GraphicsImageView._emit_pixel_info_at_viewport_point: inverse-map the
viewport point through the current transform, floor to integer image
coordinates, and report (-1, -1, none) outside the image, a single
intensity for a grayscale image, or an RGB triple otherwise. -/
def emit_pixel_info (st : ViewState) (vp : Int × Int) : Int × Int × Option PixelValue :=
  match st.orig_qimage with
  | none => (-1, -1, none)
  | some img =>
    let sp := mapToSceneP st vp
    let x : Int := ⌊sp.1⌋
    let y : Int := ⌊sp.2⌋
    let iw : Int := img.w
    let ih : Int := img.h
    if x < 0 ∨ y < 0 ∨ iw ≤ x ∨ ih ≤ y then (-1, -1, none)
    else
      let c := img.pix x.toNat y.toNat
      if st.is_grayscale then (x, y, some (PixelValue.gray c.1))
      else (x, y, some (PixelValue.rgb c.1 c.2.1 c.2.2))

/- ------------------------------------------------------------------
Wheel handling (src/main.py lines 745-819).
------------------------------------------------------------------ -/

/-- Python int() truncation toward zero of an exact rational. -/
def truncQ (q : ℚ) : Int := if 0 ≤ q then ⌊q⌋ else ⌈q⌉

/-- The two sequential render-hint checks of wheelEvent: disable smooth
resampling above scale 2.5, re-enable it at or below 2.5. Only the
smooth_enabled flag ever changes. -/
def smoothAdjust (st : ViewState) (new_scale : ℚ) : ViewState :=
  let st4 :=
    if 2.5 < new_scale ∧ st.smooth_enabled then { st with smooth_enabled := false }
    else st
  if new_scale ≤ 2.5 ∧ st4.smooth_enabled = false then { st4 with smooth_enabled := true }
  else st4

/-- The scale clamp of wheelEvent: max(MIN_SCALE, min(x, max_scale)) with
MIN_SCALE = 0.05 and max_scale = 64.0 (the initial and never-changed
value of the _max_scale attribute). -/
def clampScale (x : ℚ) : ℚ := max 0.05 (min x 64)

/-- The scale actually applied by one wheel-zoom: the code multiplies the
current scale by factor_to_apply = clamped target / current scale. -/
def zoomAtScale (s f : ℚ) : ℚ := s * (clampScale (s * f) / s)

/-- GraphicsImageView.wheelEvent: Ctrl or Shift scroll the view; otherwise
a wheel step zooms about the cursor with factor 1 + 0.0015 * delta and a
clamped scale. In pixel mode a zoom-out gesture exits pixel mode instead;
a zoom-in gesture whose clamped scale reaches PIXEL_CELL - 1 enters pixel
mode, snapping the scale to exactly PIXEL_CELL. -/
def wheelEvent (st : ViewState) (delta : Int) (ctrl shift : Bool)
    (pos : Int × Int) : ViewState :=
  if delta = 0 then st
  else if ctrl then
    let step := truncQ (-(delta : ℚ) / 120 * 30)
    { st with scrollY := st.scrollY + (step : ℚ) }
  else if shift then
    let step := truncQ (-(delta : ℚ) / 120 * 30)
    { st with scrollX := st.scrollX + (step : ℚ) }
  else if st.pixmap_item = false then st
  else
    let ref := pos
    let old_scene := mapToSceneP st ref
    let factor : ℚ := 1 + 0.0015 * (delta : ℚ)
    let target_scale := st.transform.s * factor
    let new_scale := clampScale target_scale
    let factor_to_apply := new_scale / st.transform.s
    if st.pixel_mode ∧ delta < 0 then exit_pixel_mode st (some ref)
    else
      let st1 := { st with transform := st.transform.scaleBy factor_to_apply }
      let new_scene := mapToSceneP st1 ref
      let st2 := { st1 with transform :=
        st1.transform.translateBy (new_scene.1 - old_scene.1) (new_scene.2 - old_scene.2) }
      let st3 := { st2 with zooming := true }
      let st5 := smoothAdjust st3 new_scale
      let st6 := { st5 with auto_fit_mode := false }
      if (PIXEL_CELL : ℚ) - 1 ≤ new_scale ∧ 0 < delta ∧ st6.orig_qimage.isSome
      then enter_pixel_mode st6 (some ref)
      else st6

/- ------------------------------------------------------------------
Concrete example data used to instantiate the theorems.
------------------------------------------------------------------ -/

/-- A 10 by 10 image whose every pixel is (255, 0, 0). -/
def img10red : ImageBuf := ⟨10, 10, fun _ _ => (255, 0, 0)⟩

/-- A uniformly gray 50 by 50 image. -/
def gray50 : ImageBuf := ⟨50, 50, fun _ _ => (7, 7, 7)⟩

/-- A 50 by 50 image with one non-gray pixel at the sampled grid point
(0, 0). -/
def color50 : ImageBuf :=
  ⟨50, 50, fun x y => if x = 0 ∧ y = 0 then (10, 20, 30) else (7, 7, 7)⟩

/-- A typical viewer state holding the given image in the given mode. -/
def baseState (img : Option ImageBuf) (pm : Bool) : ViewState :=
  { pixmap_item := img.isSome
    pixmap_visible := true
    orig_qimage := img
    is_grayscale := false
    pixel_mode := pm
    saved_transform := none
    saved_scale := none
    transform := Transform.identity
    scrollX := 0
    scrollY := 0
    viewportW := 800
    viewportH := 600
    tile_cache := TileCache.empty CACHE_MAX_TILES
    tile_items := []
    auto_fit_mode := true
    zooming := false
    smooth_enabled := true }

end ImageWatch

namespace ImageWatch

/- ------------------------------------------------------------------
Field-preservation lemmas for the state-machine operations.
------------------------------------------------------------------ -/

theorem updateVisibleTiles_preserves (st : ViewState) :
    (updateVisibleTiles st).pixmap_item = st.pixmap_item ∧
    (updateVisibleTiles st).pixmap_visible = st.pixmap_visible ∧
    (updateVisibleTiles st).orig_qimage = st.orig_qimage ∧
    (updateVisibleTiles st).pixel_mode = st.pixel_mode ∧
    (updateVisibleTiles st).saved_transform = st.saved_transform ∧
    (updateVisibleTiles st).transform = st.transform := by
  unfold updateVisibleTiles updateVisibleTilesDiff
  cases h1 : st.orig_qimage with
  | none =>
    cases h2 : st.pixel_mode with
    | false => exact ⟨rfl, rfl, h1, rfl, rfl, rfl⟩
    | true => exact ⟨rfl, rfl, h1, rfl, rfl, rfl⟩
  | some img =>
    cases h2 : st.pixel_mode with
    | false => exact ⟨rfl, rfl, h1, h2, rfl, rfl⟩
    | true => exact ⟨rfl, rfl, rfl, rfl, rfl, rfl⟩

theorem uvt_pixmap_item (st : ViewState) :
    (updateVisibleTiles st).pixmap_item = st.pixmap_item :=
  (updateVisibleTiles_preserves st).1

theorem uvt_orig_qimage (st : ViewState) :
    (updateVisibleTiles st).orig_qimage = st.orig_qimage :=
  (updateVisibleTiles_preserves st).2.2.1

theorem uvt_pixel_mode (st : ViewState) :
    (updateVisibleTiles st).pixel_mode = st.pixel_mode :=
  (updateVisibleTiles_preserves st).2.2.2.1

theorem uvt_saved_transform (st : ViewState) :
    (updateVisibleTiles st).saved_transform = st.saved_transform :=
  (updateVisibleTiles_preserves st).2.2.2.2.1

theorem uvt_transform (st : ViewState) :
    (updateVisibleTiles st).transform = st.transform :=
  (updateVisibleTiles_preserves st).2.2.2.2.2

theorem enter_pixel_mode_spec (st : ViewState) (img : ImageBuf) (r : Option (Int × Int))
    (him : st.orig_qimage = some img) (hpm : st.pixel_mode = false) :
    (enter_pixel_mode st r).pixel_mode = true ∧
    (enter_pixel_mode st r).transform = ⟨(PIXEL_CELL : ℚ), 0, 0⟩ ∧
    (enter_pixel_mode st r).saved_transform = some st.transform ∧
    (enter_pixel_mode st r).orig_qimage = some img := by
  simp only [enter_pixel_mode, him, hpm, Bool.false_eq_true, if_false]
  split
  · exact ⟨(uvt_pixel_mode _).trans rfl, (uvt_transform _).trans rfl,
      (uvt_saved_transform _).trans rfl, (uvt_orig_qimage _).trans rfl⟩
  · exact ⟨(uvt_pixel_mode _).trans rfl, (uvt_transform _).trans rfl,
      (uvt_saved_transform _).trans rfl, (uvt_orig_qimage _).trans rfl⟩

theorem exit_pixel_mode_spec (st : ViewState) (img : ImageBuf) (r : Option (Int × Int))
    (him : st.orig_qimage = some img) (hpm : st.pixel_mode = true) :
    (exit_pixel_mode st r).pixel_mode = false ∧
    (exit_pixel_mode st r).tile_items = [] ∧
    (exit_pixel_mode st r).transform =
      (match st.saved_transform with
       | some t0 => t0
       | none => Transform.identity) := by
  refine ⟨?_, ?_, ?_⟩ <;>
    cases hs : st.saved_transform <;>
      simp only [exit_pixel_mode, him, hpm, hs, if_true] <;>
      first
        | trivial
        | (split <;> rfl)

/- ------------------------------------------------------------------
C10: invalid-mode transition calls are silent no-ops.
------------------------------------------------------------------ -/

/-- C10: calling enter_pixel_mode while already in pixel mode or with no
image loaded returns the state unchanged, and calling exit_pixel_mode
while not in pixel mode returns the state unchanged; neither raises nor
partially executes. -/
theorem pixel_mode_invalid_calls_noop (st : ViewState) (r : Option (Int × Int)) :
    ((st.pixel_mode = true ∨ st.orig_qimage = none) → enter_pixel_mode st r = st) ∧
    (st.pixel_mode = false → exit_pixel_mode st r = st) := by
  constructor
  · rintro (h | h)
    · unfold enter_pixel_mode
      cases him : st.orig_qimage with
      | none => rfl
      | some img => simp [h]
    · simp [enter_pixel_mode, h]
  · intro h
    simp [exit_pixel_mode, h]

/-- Witness for C10 at concrete states: entering from pixel mode and
exiting from normal mode both leave the state untouched. -/
theorem pixel_mode_invalid_calls_noop_witness :
    enter_pixel_mode (baseState (some img10red) true) none = baseState (some img10red) true ∧
    exit_pixel_mode (baseState (some img10red) false) none = baseState (some img10red) false :=
  ⟨(pixel_mode_invalid_calls_noop (baseState (some img10red) true) none).1 (Or.inl rfl),
   (pixel_mode_invalid_calls_noop (baseState (some img10red) false) none).2 rfl⟩

/- ------------------------------------------------------------------
C9: a failed load reports an error and mutates nothing.
------------------------------------------------------------------ -/

/-- C9: for a null, empty or zero-dimensioned buffer, load_image reports a
load error (Bool result true) and returns the state exactly unchanged, so
image, tile cache, tile items, mode and transform are all preserved. -/
theorem load_image_invalid_noop (st : ViewState) (buf : Option ImageBuf)
    (h : buf = none ∨ ∃ pm, buf = some pm ∧ (pm.w = 0 ∨ pm.h = 0)) :
    load_image st buf = (st, true) := by
  rcases h with h | ⟨pm, hb, hz⟩
  · rw [h]; rfl
  · rw [hb]; simp only [load_image, if_pos hz]

/-- Witness for C9 at a concrete state and a zero-width buffer. -/
theorem load_image_invalid_noop_witness :
    load_image (baseState (some img10red) false) (some ⟨0, 5, fun _ _ => (0, 0, 0)⟩) =
      (baseState (some img10red) false, true) :=
  load_image_invalid_noop _ _ (Or.inr ⟨⟨0, 5, fun _ _ => (0, 0, 0)⟩, rfl, Or.inl rfl⟩)

/- ------------------------------------------------------------------
C2: enter then exit restores the transform bit for bit.
------------------------------------------------------------------ -/

/-- C2: from normal mode with an image loaded, enter_pixel_mode followed
immediately by exit_pixel_mode reinstates the exact pre-entry transform
(the transform saved at entry is what exit restores). -/
theorem enter_exit_restores_exact_transform (st : ViewState) (img : ImageBuf)
    (him : st.orig_qimage = some img) (hpm : st.pixel_mode = false)
    (p q : Option (Int × Int)) :
    (exit_pixel_mode (enter_pixel_mode st p) q).transform = st.transform := by
  obtain ⟨h1, _h2, h3, h4⟩ := enter_pixel_mode_spec st img p him hpm
  obtain ⟨_e1, _e2, e3⟩ := exit_pixel_mode_spec (enter_pixel_mode st p) img q h4 h1
  rw [e3, h3]

/-- Witness for C2 at a concrete state with transform scale 2 and a
nonzero translation. -/
theorem enter_exit_restores_exact_transform_witness :
    (exit_pixel_mode (enter_pixel_mode
        { baseState (some img10red) false with transform := ⟨2, 3, 4⟩ } none) none).transform
      = ⟨2, 3, 4⟩ :=
  enter_exit_restores_exact_transform
    { baseState (some img10red) false with transform := ⟨2, 3, 4⟩ } img10red rfl rfl none none

/- ------------------------------------------------------------------
C1: wheel-zoom scales are clamped and stay inside [0.05, 64].
------------------------------------------------------------------ -/

theorem clampScale_bounds (x : ℚ) : 0.05 ≤ clampScale x ∧ clampScale x ≤ 64 :=
  ⟨le_max_left _ _, max_le (by norm_num) (min_le_right _ _)⟩

theorem zoomAtScale_eq_clamp (s f : ℚ) (hs : s ≠ 0) :
    zoomAtScale s f = clampScale (s * f) := by
  unfold zoomAtScale
  rw [mul_comm, div_mul_cancel₀ _ hs]

theorem zoomAtScale_fold_mem (factors : List ℚ) :
    ∀ s : ℚ, 0.05 ≤ s → s ≤ 64 →
      0.05 ≤ factors.foldl zoomAtScale s ∧ factors.foldl zoomAtScale s ≤ 64 := by
  induction factors with
  | nil => exact fun _ h1 h2 => ⟨h1, h2⟩
  | cons f rest ih =>
    intro s h1 h2
    have hs : s ≠ 0 := ne_of_gt (lt_of_lt_of_le (by norm_num) h1)
    have hb := clampScale_bounds (s * f)
    simp only [List.foldl_cons]
    rw [zoomAtScale_eq_clamp s f hs]
    exact ih _ hb.1 hb.2

/-- C1: starting from any scale in [0.05, 64], each wheel zoom realizes
exactly the clamped scale clampScale (s * factor), and therefore any
sequence of wheel zooms keeps the scale within [0.05, 64]. -/
theorem wheel_zoom_scale_invariant (s0 : ℚ) (h1 : 0.05 ≤ s0) (h2 : s0 ≤ 64)
    (factors : List ℚ) :
    (∀ f : ℚ, zoomAtScale s0 f = clampScale (s0 * f)) ∧
    0.05 ≤ factors.foldl zoomAtScale s0 ∧ factors.foldl zoomAtScale s0 ≤ 64 := by
  have hs : s0 ≠ 0 := ne_of_gt (lt_of_lt_of_le (by norm_num) h1)
  obtain ⟨hl, hr⟩ := zoomAtScale_fold_mem factors s0 h1 h2
  exact ⟨fun f => zoomAtScale_eq_clamp s0 f hs, hl, hr⟩

/-- Witness for C1: from scale 1, three extreme wheel factors keep the
scale inside the bounds. -/
theorem wheel_zoom_scale_invariant_witness :
    (0.05 : ℚ) ≤ 1 ∧ (1 : ℚ) ≤ 64 ∧
    0.05 ≤ ([1000, 1000, -5] : List ℚ).foldl zoomAtScale 1 ∧
    ([1000, 1000, -5] : List ℚ).foldl zoomAtScale 1 ≤ 64 :=
  ⟨by norm_num, by norm_num,
   (wheel_zoom_scale_invariant 1 (by norm_num) (by norm_num) [1000, 1000, -5]).2.1,
   (wheel_zoom_scale_invariant 1 (by norm_num) (by norm_num) [1000, 1000, -5]).2.2⟩

theorem smoothAdjust_preserves (st : ViewState) (ns : ℚ) :
    (smoothAdjust st ns).orig_qimage = st.orig_qimage ∧
    (smoothAdjust st ns).pixel_mode = st.pixel_mode ∧
    (smoothAdjust st ns).transform = st.transform ∧
    (smoothAdjust st ns).tile_items = st.tile_items ∧
    (smoothAdjust st ns).pixmap_item = st.pixmap_item := by
  simp only [smoothAdjust]
  split_ifs <;> exact ⟨rfl, rfl, rfl, rfl, rfl⟩

theorem smoothAdjust_orig_qimage (st : ViewState) (ns : ℚ) :
    (smoothAdjust st ns).orig_qimage = st.orig_qimage :=
  (smoothAdjust_preserves st ns).1

theorem smoothAdjust_pixel_mode (st : ViewState) (ns : ℚ) :
    (smoothAdjust st ns).pixel_mode = st.pixel_mode :=
  (smoothAdjust_preserves st ns).2.1

theorem enter_snap (y : ViewState) (img : ImageBuf) (r : Option (Int × Int))
    (hy : y.orig_qimage = some img) (hpmy : y.pixel_mode = false) :
    (enter_pixel_mode y r).pixel_mode = true ∧ (enter_pixel_mode y r).transform.s = 64 := by
  obtain ⟨h1, h2, _, _⟩ := enter_pixel_mode_spec y img r hy hpmy
  refine ⟨h1, ?_⟩
  rw [h2]
  norm_num [PIXEL_CELL]

/- ------------------------------------------------------------------
C4: a zoom-out wheel gesture in pixel mode exits and clears tiles.
------------------------------------------------------------------ -/

/-- C4: in pixel mode with an image loaded, a wheel gesture with negative
angle delta and no scroll modifiers leaves pixel mode and empties the
materialized tile set, whatever scale the gesture would have produced. -/
theorem pixel_zoomout_exits_and_clears (st : ViewState) (img : ImageBuf)
    (him : st.orig_qimage = some img) (hpi : st.pixmap_item = true)
    (hpm : st.pixel_mode = true) (delta : Int) (hd : delta < 0) (pos : Int × Int) :
    (wheelEvent st delta false false pos).pixel_mode = false ∧
    (wheelEvent st delta false false pos).tile_items = [] := by
  have hd0 : ¬ delta = 0 := by omega
  have hw : wheelEvent st delta false false pos = exit_pixel_mode st (some pos) := by
    simp only [wheelEvent, hd0, if_false, Bool.false_eq_true, Bool.true_eq_false, hpi, hpm, hd,
      and_self, if_true, ite_false, ite_true]
  obtain ⟨e1, e2, _e3⟩ := exit_pixel_mode_spec st img (some pos) him hpm
  rw [hw]
  exact ⟨e1, e2⟩

/-- Witness for C4: a concrete pixel-mode state with one materialized
tile; a wheel notch of -120 exits pixel mode and clears the tile set even
though the computed scale 52.48 would still be a legal normal-mode scale. -/
theorem pixel_zoomout_exits_and_clears_witness :
    (wheelEvent
        { baseState (some img10red) true with
            transform := ⟨64, 0, 0⟩,
            tile_items := [((0, 0), ⟨640, 640⟩)] }
        (-120) false false (5, 5)).pixel_mode = false ∧
    (wheelEvent
        { baseState (some img10red) true with
            transform := ⟨64, 0, 0⟩,
            tile_items := [((0, 0), ⟨640, 640⟩)] }
        (-120) false false (5, 5)).tile_items = [] :=
  pixel_zoomout_exits_and_clears _ img10red rfl rfl rfl (-120) (by omega) (5, 5)

/- ------------------------------------------------------------------
C5: a zoom-in gesture reaching scale 63 enters pixel mode at scale 64.
------------------------------------------------------------------ -/

/-- C5: from normal mode with an image loaded, a wheel gesture with
positive angle delta whose clamped resulting scale reaches at least
PIXEL_CELL - 1 = 63 puts the viewer in pixel mode with the transform scale
snapped to exactly 64, not to the computed target scale. -/
theorem zoomin_threshold_enters_pixel_mode (st : ViewState) (img : ImageBuf)
    (him : st.orig_qimage = some img) (hpi : st.pixmap_item = true)
    (hpm : st.pixel_mode = false) (delta : Int) (hd : 0 < delta) (pos : Int × Int)
    (hs : (63 : ℚ) ≤ clampScale (st.transform.s * (1 + 0.0015 * (delta : ℚ)))) :
    (wheelEvent st delta false false pos).pixel_mode = true ∧
    (wheelEvent st delta false false pos).transform.s = 64 := by
  have hd0 : ¬ delta = 0 := by omega
  have hnd : ¬ delta < 0 := by omega
  have hcast : ((PIXEL_CELL : Int) : ℚ) - 1 = 63 := by norm_num [PIXEL_CELL]
  simp only [wheelEvent, hd0, if_false, Bool.false_eq_true, Bool.true_eq_false, hpi, hpm, hnd,
    and_false, false_and, ite_false, ite_true, hcast, hs, hd, smoothAdjust_orig_qimage, him,
    Option.isSome_some, and_true, true_and, if_true]
  refine enter_snap _ img _ ?_ ?_
  · simp [smoothAdjust_orig_qimage, him]
  · simp [smoothAdjust_pixel_mode, hpm]

/-- Witness for C5: at scale 62 a wheel notch of +16 computes a clamped
target of 63.488, which crosses the 63 threshold, and the resulting state
is in pixel mode at scale exactly 64, not 63.488. -/
theorem zoomin_threshold_enters_pixel_mode_witness :
    (63 : ℚ) ≤ clampScale ((62 : ℚ) * (1 + 0.0015 * ((16 : Int) : ℚ))) ∧
    (wheelEvent { baseState (some img10red) false with transform := ⟨62, 0, 0⟩ }
        16 false false (5, 5)).pixel_mode = true ∧
    (wheelEvent { baseState (some img10red) false with transform := ⟨62, 0, 0⟩ }
        16 false false (5, 5)).transform.s = 64 := by
  have hs : (63 : ℚ) ≤ clampScale ((62 : ℚ) * (1 + 0.0015 * ((16 : Int) : ℚ))) := by
    unfold clampScale
    rw [min_eq_left (by norm_num), max_eq_right (by norm_num)]
    norm_num
  have h := zoomin_threshold_enters_pixel_mode
    { baseState (some img10red) false with transform := ⟨62, 0, 0⟩ } img10red rfl rfl rfl
    16 (by omega) (5, 5) hs
  exact ⟨hs, h.1, h.2⟩

/- ------------------------------------------------------------------
C7: the pixel probe floors the inverse-mapped point and samples per the
grayscale flag, independent of zoom mode.
------------------------------------------------------------------ -/

/-- C7: the probe inverse-maps the viewport point through the current
transform and floors; outside [0, w) x [0, h) it reports an absent sample,
otherwise a single intensity when the grayscale flag is set and an RGB
triple when it is not; the answer never depends on the zoom mode flag. -/
theorem pixel_probe_characterized (st : ViewState) (img : ImageBuf)
    (him : st.orig_qimage = some img) (vp : Int × Int) :
    ((emit_pixel_info st vp).2.2 = none ↔
      (⌊(mapToSceneP st vp).1⌋ < 0 ∨ ⌊(mapToSceneP st vp).2⌋ < 0 ∨
       (img.w : Int) ≤ ⌊(mapToSceneP st vp).1⌋ ∨ (img.h : Int) ≤ ⌊(mapToSceneP st vp).2⌋)) ∧
    (0 ≤ ⌊(mapToSceneP st vp).1⌋ → ⌊(mapToSceneP st vp).1⌋ < (img.w : Int) →
     0 ≤ ⌊(mapToSceneP st vp).2⌋ → ⌊(mapToSceneP st vp).2⌋ < (img.h : Int) →
     emit_pixel_info st vp =
       (⌊(mapToSceneP st vp).1⌋, ⌊(mapToSceneP st vp).2⌋,
        some (if st.is_grayscale then
                PixelValue.gray
                  (img.pix (⌊(mapToSceneP st vp).1⌋).toNat (⌊(mapToSceneP st vp).2⌋).toNat).1
              else
                PixelValue.rgb
                  (img.pix (⌊(mapToSceneP st vp).1⌋).toNat (⌊(mapToSceneP st vp).2⌋).toNat).1
                  (img.pix (⌊(mapToSceneP st vp).1⌋).toNat (⌊(mapToSceneP st vp).2⌋).toNat).2.1
                  (img.pix (⌊(mapToSceneP st vp).1⌋).toNat
                    (⌊(mapToSceneP st vp).2⌋).toNat).2.2))) ∧
    (∀ b : Bool, emit_pixel_info { st with pixel_mode := b } vp = emit_pixel_info st vp) := by
  refine ⟨?_, ?_, fun b => rfl⟩
  · unfold emit_pixel_info
    rw [him]
    dsimp only
    split
    · rename_i h
      simpa using h
    · rename_i h
      cases hg : st.is_grayscale <;> simpa [hg] using h
  · intro h1 h2 h3 h4
    unfold emit_pixel_info
    rw [him]
    dsimp only
    rw [if_neg (by omega :
      ¬(⌊(mapToSceneP st vp).1⌋ < 0 ∨ ⌊(mapToSceneP st vp).2⌋ < 0 ∨
        (img.w : Int) ≤ ⌊(mapToSceneP st vp).1⌋ ∨ (img.h : Int) ≤ ⌊(mapToSceneP st vp).2⌋))]
    cases hg : st.is_grayscale <;> simp [hg]

/-- Witness for C7 on a 10 by 10 all-red color image under the identity
transform: viewport point (-1, 3) maps outside and is absent, viewport
point (4, 4) maps to pixel (4, 4) and reports (255, 0, 0). -/
theorem pixel_probe_characterized_witness :
    (emit_pixel_info (baseState (some img10red) false) (-1, 3)).2.2 = none ∧
    emit_pixel_info (baseState (some img10red) false) (4, 4) =
      (4, 4, some (PixelValue.rgb 255 0 0)) := by
  have hA := pixel_probe_characterized (baseState (some img10red) false) img10red rfl (-1, 3)
  have hB := pixel_probe_characterized (baseState (some img10red) false) img10red rfl (4, 4)
  have hm1 : (mapToSceneP (baseState (some img10red) false) (-1, 3)).1 = -1 := by
    norm_num [mapToSceneP, mapToSceneQ, baseState, Transform.identity]
  have hm2x : (mapToSceneP (baseState (some img10red) false) (4, 4)).1 = 4 := by
    norm_num [mapToSceneP, mapToSceneQ, baseState, Transform.identity]
  have hm2y : (mapToSceneP (baseState (some img10red) false) (4, 4)).2 = 4 := by
    norm_num [mapToSceneP, mapToSceneQ, baseState, Transform.identity]
  constructor
  · apply hA.1.mpr
    left
    rw [hm1]
    norm_num
  · have h := hB.2.1 (by rw [hm2x]; norm_num) (by rw [hm2x]; norm_num [img10red])
      (by rw [hm2y]; norm_num) (by rw [hm2y]; norm_num [img10red])
    rw [h, hm2x, hm2y]
    norm_num [img10red, baseState]

/- ------------------------------------------------------------------
C6: grayscale classification: sampling grid and early-false semantics.
------------------------------------------------------------------ -/

theorem stepOf_pos (d : Nat) : 0 < stepOf d :=
  lt_of_lt_of_le Nat.zero_lt_one (le_max_left 1 (d / 100))

theorem mem_sampleList {d x : Nat} : x ∈ sampleList d ↔ x < d ∧ stepOf d ∣ x := by
  have hstep : 0 < stepOf d := stepOf_pos d
  unfold sampleList sampleCount
  simp only [List.mem_map, List.mem_range]
  constructor
  · rintro ⟨j, hj, rfl⟩
    refine ⟨?_, dvd_mul_left _ _⟩
    have h1 : (j + 1) * stepOf d ≤ d + stepOf d - 1 := (Nat.le_div_iff_mul_le hstep).mp hj
    have h2 : (j + 1) * stepOf d = j * stepOf d + stepOf d := by ring
    omega
  · rintro ⟨hx, k, rfl⟩
    refine ⟨k, ?_, by ring⟩
    rw [Nat.lt_iff_add_one_le, Nat.le_div_iff_mul_le hstep]
    have h2 : (k + 1) * stepOf d = stepOf d * k + stepOf d := by ring
    omega

theorem sampleCount_le_199 (d : Nat) : sampleCount d ≤ 199 := by
  unfold sampleCount stepOf
  rcases Nat.lt_or_ge d 100 with h | h
  · have h0 : d / 100 = 0 := Nat.div_eq_of_lt h
    rw [h0]
    simp
    omega
  · have h1 : 1 ≤ d / 100 := (Nat.one_le_div_iff (by norm_num)).mpr h
    have hm : max 1 (d / 100) = d / 100 := max_eq_right h1
    rw [hm]
    apply Nat.div_le_of_le_mul
    have h2 := Nat.div_add_mod d 100
    have h3 : d % 100 < 100 := Nat.mod_lt _ (by norm_num)
    omega

theorem detect_grayscale_iff (img : ImageBuf) :
    detect_grayscale img = true ↔
      ∀ x y : Nat, x < img.w → y < img.h → stepOf img.w ∣ x → stepOf img.h ∣ y →
        isGrayPix (img.pix x y) = true := by
  unfold detect_grayscale
  simp only [List.all_eq_true]
  constructor
  · intro h x y hx hy hdx hdy
    exact h y (mem_sampleList.mpr ⟨hy, hdy⟩) x (mem_sampleList.mpr ⟨hx, hdx⟩)
  · intro h y hy x hx
    obtain ⟨hy1, hy2⟩ := mem_sampleList.mp hy
    obtain ⟨hx1, hx2⟩ := mem_sampleList.mp hx
    exact h x y hx1 hy1 hx2 hy2

set_option maxRecDepth 10000 in
/-- C6 counterexample: for a 150-pixel axis the stride max(1, 150 / 100)
is 1, so a 150 by 150 image is sampled at 150 * 150 = 22500 grid points,
more than the claimed bound of 100 * 100. -/
theorem grayscale_sample_grid_exceeds_100x100 :
    100 * 100 < (sampleList 150).length * (sampleList 150).length := by decide

/-- C6 (amended): the classifier samples the grid with per-axis stride
max(1, dimension / 100), which yields at most 199 points per axis (not at
most 100); it returns true exactly when every sampled pixel has equal
channels — so false as soon as one sampled pixel differs — and in
particular returns true on a uniformly gray 50 by 50 image and false on a
50 by 50 image with a non-gray pixel at sampled grid point (0, 0). -/
theorem grayscale_classification_characterized (img : ImageBuf) :
    sampleCount img.w ≤ 199 ∧ sampleCount img.h ≤ 199 ∧
    (detect_grayscale img = true ↔
      ∀ x y : Nat, x < img.w → y < img.h → stepOf img.w ∣ x → stepOf img.h ∣ y →
        isGrayPix (img.pix x y) = true) ∧
    detect_grayscale gray50 = true ∧
    detect_grayscale color50 = false :=
  ⟨sampleCount_le_199 _, sampleCount_le_199 _, detect_grayscale_iff img, by decide, by decide⟩

/- ------------------------------------------------------------------
C3: the tile cache is a bounded LRU. Dictionary lemmas first.
------------------------------------------------------------------ -/

theorem Dict.lookup_isSome_iff {K V : Type} [DecidableEq K] (k : K) (l : List (K × V)) :
    (Dict.lookup k l).isSome = true ↔ k ∈ l.map Prod.fst := by
  induction l with
  | nil => simp [Dict.lookup]
  | cons kv rest ih =>
    simp only [Dict.lookup, List.map_cons, List.mem_cons]
    by_cases h : kv.1 = k
    · simp [h]
    · have h2 : ¬ k = kv.1 := fun hk => h hk.symm
      simp [h, h2, ih]

theorem Dict.mem_keys_insertD {K V : Type} [DecidableEq K] (k : K) (v : V)
    (l : List (K × V)) (a : K) :
    a ∈ (Dict.insertD k v l).map Prod.fst ↔ a = k ∨ a ∈ l.map Prod.fst := by
  induction l with
  | nil => simp [Dict.insertD]
  | cons kv rest ih =>
    simp only [Dict.insertD]
    by_cases h : kv.1 = k
    · rw [if_pos h]
      simp only [List.map_cons, List.mem_cons, h]
      tauto
    · rw [if_neg h]
      simp only [List.map_cons, List.mem_cons, ih]
      tauto

theorem Dict.nodup_keys_insertD {K V : Type} [DecidableEq K] (k : K) (v : V)
    (l : List (K × V)) (h : (l.map Prod.fst).Nodup) :
    ((Dict.insertD k v l).map Prod.fst).Nodup := by
  induction l with
  | nil => simp [Dict.insertD]
  | cons kv rest ih =>
    simp only [List.map_cons, List.nodup_cons] at h
    obtain ⟨h1, h2⟩ := h
    simp only [Dict.insertD]
    by_cases hk : kv.1 = k
    · rw [if_pos hk]
      simp only [List.map_cons, List.nodup_cons]
      exact ⟨hk ▸ h1, h2⟩
    · rw [if_neg hk]
      simp only [List.map_cons, List.nodup_cons]
      refine ⟨?_, ih h2⟩
      rw [Dict.mem_keys_insertD]
      rintro (h3 | h3)
      · exact hk h3
      · exact h1 h3

theorem Dict.mem_keys_eraseD {K V : Type} [DecidableEq K] (k : K) (l : List (K × V))
    (a : K) : a ∈ (Dict.eraseD k l).map Prod.fst ↔ a ≠ k ∧ a ∈ l.map Prod.fst := by
  induction l with
  | nil => simp [Dict.eraseD]
  | cons kv rest ih =>
    simp only [Dict.eraseD]
    by_cases h : kv.1 = k
    · rw [if_pos h, ih]
      simp only [List.map_cons, List.mem_cons]
      constructor
      · rintro ⟨h1, h2⟩
        exact ⟨h1, Or.inr h2⟩
      · rintro ⟨h1, h2 | h2⟩
        · exact absurd (h2.trans h) h1
        · exact ⟨h1, h2⟩
    · rw [if_neg h]
      simp only [List.map_cons, List.mem_cons, ih]
      constructor
      · rintro (h2 | ⟨h1, h2⟩)
        · exact ⟨fun hak => h (h2.symm.trans hak), Or.inl h2⟩
        · exact ⟨h1, Or.inr h2⟩
      · rintro ⟨h1, h2 | h2⟩
        · exact Or.inl h2
        · exact Or.inr ⟨h1, h2⟩

theorem Dict.eraseD_sublist {K V : Type} [DecidableEq K] (k : K) (l : List (K × V)) :
    (Dict.eraseD k l).Sublist l := by
  induction l with
  | nil => simp [Dict.eraseD]
  | cons kv rest ih =>
    simp only [Dict.eraseD]
    by_cases h : kv.1 = k
    · rw [if_pos h]; exact ih.cons _
    · rw [if_neg h]; exact ih.cons₂ _

theorem Dict.nodup_keys_eraseD {K V : Type} [DecidableEq K] (k : K) (l : List (K × V))
    (h : (l.map Prod.fst).Nodup) : ((Dict.eraseD k l).map Prod.fst).Nodup :=
  h.sublist ((Dict.eraseD_sublist k l).map Prod.fst)

/- ------------------------------------------------------------------
TileCache invariant lemmas.
------------------------------------------------------------------ -/

theorem TileCache.inv_length_eq {K V : Type} [DecidableEq K] {c : TileCache K V}
    (h : c.Inv) : c.cache.length = c.order.length := by
  obtain ⟨h1, h2, h3⟩ := h
  have hp : c.keys.Perm c.order := (List.perm_ext_iff_of_nodup h2 h1).mpr h3
  simpa [TileCache.keys] using hp.length_eq

theorem TileCache.get_inv {K V : Type} [DecidableEq K] {c : TileCache K V} (k : K)
    (h : c.Inv) :
    ((c.get k).2).Inv ∧ ((c.get k).2).cache = c.cache ∧
    ((c.get k).2).max_tiles = c.max_tiles := by
  obtain ⟨h1, h2, h3⟩ := h
  unfold TileCache.get
  cases hl : Dict.lookup k c.cache with
  | none => exact ⟨⟨h1, h2, h3⟩, rfl, rfl⟩
  | some v =>
    have hk : k ∈ c.order := by
      rw [← h3 k]
      show k ∈ c.cache.map Prod.fst
      rw [← Dict.lookup_isSome_iff, hl]
      rfl
    refine ⟨⟨?_, h2, ?_⟩, rfl, rfl⟩
    · rw [List.nodup_append]
      refine ⟨h1.erase k, List.nodup_singleton k, ?_⟩
      intro a ha hb
      rw [List.mem_singleton] at hb
      subst hb
      exact ((h1.mem_erase_iff).mp ha).1 rfl
    · intro a
      show a ∈ c.keys ↔ a ∈ c.order.erase k ++ [k]
      rw [h3 a, List.mem_append, h1.mem_erase_iff, List.mem_singleton]
      by_cases hak : a = k
      · simp [hak, hk]
      · simp [hak]

theorem TileCache.evictLoop_length_le {K V : Type} [DecidableEq K] (max : Nat)
    (order : List K) :
    ∀ cache : List (K × V), ((TileCache.evictLoop max order cache).1).length ≤ max := by
  induction order with
  | nil =>
    intro cache
    simpa [TileCache.evictLoop] using Nat.zero_le max
  | cons k rest ih =>
    intro cache
    unfold TileCache.evictLoop
    by_cases h : rest.length + 1 > max
    · rw [if_pos h]; exact ih _
    · rw [if_neg h]
      simpa using Nat.le_of_not_lt h

theorem TileCache.evictLoop_inv {K V : Type} [DecidableEq K] (max : Nat)
    (order : List K) :
    ∀ cache : List (K × V), order.Nodup → (cache.map Prod.fst).Nodup →
      (∀ a, a ∈ cache.map Prod.fst ↔ a ∈ order) →
      ((TileCache.evictLoop max order cache).1).Nodup ∧
      (((TileCache.evictLoop max order cache).2).map Prod.fst).Nodup ∧
      (∀ a, a ∈ ((TileCache.evictLoop max order cache).2).map Prod.fst ↔
        a ∈ (TileCache.evictLoop max order cache).1) := by
  induction order with
  | nil =>
    intro cache h1 h2 h3
    exact ⟨List.nodup_nil, h2, h3⟩
  | cons k rest ih =>
    intro cache h1 h2 h3
    unfold TileCache.evictLoop
    by_cases h : rest.length + 1 > max
    · rw [if_pos h]
      apply ih
      · exact h1.of_cons
      · exact Dict.nodup_keys_eraseD k cache h2
      · intro a
        rw [Dict.mem_keys_eraseD, h3 a]
        simp only [List.mem_cons]
        constructor
        · rintro ⟨hne, h4 | h4⟩
          · exact absurd h4 hne
          · exact h4
        · intro h4
          have hne : a ≠ k := by
            rintro rfl
            exact (List.nodup_cons.mp h1).1 h4
          exact ⟨hne, Or.inr h4⟩
    · rw [if_neg h]
      exact ⟨h1, h2, h3⟩

theorem TileCache.put_inv {K V : Type} [DecidableEq K] {c : TileCache K V} (k : K) (v : V)
    (h : c.Inv) :
    (c.put k v).Inv ∧ (c.put k v).cache.length ≤ c.max_tiles ∧
    (c.put k v).max_tiles = c.max_tiles := by
  obtain ⟨h1, h2, h3⟩ := h
  have key : c.put k v =
      { max_tiles := c.max_tiles
        cache := (TileCache.evictLoop c.max_tiles
          ((if (Dict.lookup k c.cache).isSome then c.order.erase k else c.order) ++ [k])
          (Dict.insertD k v c.cache)).2
        order := (TileCache.evictLoop c.max_tiles
          ((if (Dict.lookup k c.cache).isSome then c.order.erase k else c.order) ++ [k])
          (Dict.insertD k v c.cache)).1 } := rfl
  have hnodup2 :
      ((if (Dict.lookup k c.cache).isSome then c.order.erase k else c.order) ++ [k]).Nodup := by
    rw [List.nodup_append]
    refine ⟨?_, List.nodup_singleton k, ?_⟩
    · split
      · exact h1.erase k
      · exact h1
    · intro a ha hb
      rw [List.mem_singleton] at hb
      rw [hb] at ha
      revert ha
      split
      · intro ha
        exact ((h1.mem_erase_iff).mp ha).1 rfl
      · rename_i hnot
        intro ha
        apply hnot
        rw [Dict.lookup_isSome_iff]
        exact (h3 k).mpr ha
  have hmem2 : ∀ a,
      a ∈ (if (Dict.lookup k c.cache).isSome then c.order.erase k else c.order) ++ [k] ↔
        a ∈ c.order ∨ a = k := by
    intro a
    rw [List.mem_append, List.mem_singleton]
    split
    · rename_i hsome
      have hk : k ∈ c.order := by
        rw [← h3 k]
        show k ∈ c.cache.map Prod.fst
        rw [← Dict.lookup_isSome_iff]
        exact hsome
      rw [h1.mem_erase_iff]
      by_cases hak : a = k
      · simp [hak, hk]
      · simp [hak]
    · exact Iff.rfl
  have hck : ((Dict.insertD k v c.cache).map Prod.fst).Nodup :=
    Dict.nodup_keys_insertD k v c.cache h2
  have hcm : ∀ a, a ∈ (Dict.insertD k v c.cache).map Prod.fst ↔
      a ∈ (if (Dict.lookup k c.cache).isSome then c.order.erase k else c.order) ++ [k] := by
    intro a
    have h3a : a ∈ List.map Prod.fst c.cache ↔ a ∈ c.order := h3 a
    rw [Dict.mem_keys_insertD, hmem2 a, h3a]
    tauto
  have hev := TileCache.evictLoop_inv c.max_tiles
    ((if (Dict.lookup k c.cache).isSome then c.order.erase k else c.order) ++ [k])
    (Dict.insertD k v c.cache) hnodup2 hck hcm
  have hlen := @TileCache.evictLoop_length_le K V _ c.max_tiles
    ((if (Dict.lookup k c.cache).isSome then c.order.erase k else c.order) ++ [k])
    (Dict.insertD k v c.cache)
  rw [key]
  refine ⟨⟨hev.1, hev.2.1, hev.2.2⟩, ?_, rfl⟩
  have heq := @TileCache.inv_length_eq K V _
      { max_tiles := c.max_tiles
        cache := (TileCache.evictLoop c.max_tiles
          ((if (Dict.lookup k c.cache).isSome then c.order.erase k else c.order) ++ [k])
          (Dict.insertD k v c.cache)).2
        order := (TileCache.evictLoop c.max_tiles
          ((if (Dict.lookup k c.cache).isSome then c.order.erase k else c.order) ++ [k])
          (Dict.insertD k v c.cache)).1 } ⟨hev.1, hev.2.1, hev.2.2⟩
  simpa using heq.trans_le hlen

theorem TileCache.applyOp_inv {K V : Type} [DecidableEq K] {c : TileCache K V}
    (op : CacheOp K V) (h : c.Inv) (hlen : c.cache.length ≤ c.max_tiles) :
    (applyCacheOp c op).Inv ∧
    (applyCacheOp c op).cache.length ≤ (applyCacheOp c op).max_tiles := by
  cases op with
  | getOp k =>
    obtain ⟨hi, hc, hm⟩ := TileCache.get_inv k h
    refine ⟨hi, ?_⟩
    show ((c.get k).2).cache.length ≤ ((c.get k).2).max_tiles
    rw [hc, hm]
    exact hlen
  | putOp k v =>
    obtain ⟨hi, hl2, hm⟩ := TileCache.put_inv k v h
    refine ⟨hi, ?_⟩
    show (c.put k v).cache.length ≤ (c.put k v).max_tiles
    rw [hm]
    exact hl2
  | clearOp =>
    refine ⟨⟨List.nodup_nil, ?_, ?_⟩, ?_⟩
    · show (([] : List (K × V)).map Prod.fst).Nodup
      exact List.nodup_nil
    · intro a
      show a ∈ (([] : List (K × V)).map Prod.fst) ↔ a ∈ ([] : List K)
      simp
    · show ([] : List (K × V)).length ≤ c.max_tiles
      simp

theorem TileCache.runOps_inv_bound {K V : Type} [DecidableEq K] (ops : List (CacheOp K V)) :
    ∀ c : TileCache K V, c.Inv → c.cache.length ≤ c.max_tiles →
      (runCacheOps c ops).Inv ∧
      (runCacheOps c ops).cache.length ≤ (runCacheOps c ops).max_tiles := by
  induction ops with
  | nil => exact fun c h hlen => ⟨h, hlen⟩
  | cons op rest ih =>
    intro c h hlen
    obtain ⟨h2, hlen2⟩ := TileCache.applyOp_inv op h hlen
    have hmax : (applyCacheOp c op).cache.length ≤ (applyCacheOp c op).max_tiles := hlen2
    exact ih _ h2 hmax

theorem TileCache.runOps_max {K V : Type} [DecidableEq K] (ops : List (CacheOp K V)) :
    ∀ c : TileCache K V, (runCacheOps c ops).max_tiles = c.max_tiles := by
  induction ops with
  | nil => intro c; rfl
  | cons op rest ih =>
    intro c
    rw [show runCacheOps c (op :: rest) = runCacheOps (applyCacheOp c op) rest from rfl, ih]
    cases op with
    | getOp k =>
      show ((c.get k).2).max_tiles = c.max_tiles
      unfold TileCache.get
      cases hl : Dict.lookup k c.cache <;> rfl
    | putOp k v => rfl
    | clearOp => rfl

set_option maxRecDepth 100000 in
set_option maxHeartbeats 4000000 in
/-- C3: after any sequence of get, put and clear operations from the empty
200-capacity cache the dict never holds more than 200 entries; and after
putting 201 distinct tile keys (i, 0) for i = 0..200 into the empty cache,
the least-recently-used key (0, 0) is absent while the 200 keys
(1, 0)..(200, 0) are all still present. -/
theorem tile_cache_bounded_lru (ops : List (CacheOp (Int × Int) TileBmp)) :
    (runCacheOps (TileCache.empty CACHE_MAX_TILES) ops).cache.length ≤ CACHE_MAX_TILES ∧
    (Dict.lookup ((0 : Int), (0 : Int))
       (runCacheOps (TileCache.empty CACHE_MAX_TILES)
         ((List.range 201).map fun i =>
           CacheOp.putOp (((i : Int), (0 : Int)) : Int × Int) (⟨1024, 1024⟩ : TileBmp))).cache) = none ∧
    ((List.range 200).all fun i =>
       (Dict.lookup (((i : Int) + 1, (0 : Int)) : Int × Int)
         (runCacheOps (TileCache.empty CACHE_MAX_TILES)
           ((List.range 201).map fun i =>
             CacheOp.putOp (((i : Int), (0 : Int)) : Int × Int) (⟨1024, 1024⟩ : TileBmp))).cache).isSome)
      = true := by
  refine ⟨?_, by decide, by decide⟩
  have h := TileCache.runOps_inv_bound ops (TileCache.empty CACHE_MAX_TILES)
    ⟨List.nodup_nil, List.nodup_nil, fun a => Iff.rfl⟩ (Nat.zero_le _)
  exact h.2.trans_eq (TileCache.runOps_max ops _)

/- ------------------------------------------------------------------
C8: visible-tile reconciliation is idempotent.
------------------------------------------------------------------ -/

theorem Dict.lookup_insertD {K V : Type} [DecidableEq K] (k a : K) (v : V)
    (l : List (K × V)) :
    Dict.lookup a (Dict.insertD k v l) = if k = a then some v else Dict.lookup a l := by
  induction l with
  | nil => simp [Dict.insertD, Dict.lookup]
  | cons kv rest ih =>
    simp only [Dict.insertD]
    by_cases h : kv.1 = k
    · rw [if_pos h]
      simp only [Dict.lookup]
      by_cases h2 : k = a
      · rw [if_pos h2, if_pos h2]
      · have h3 : ¬ kv.1 = a := fun hh => h2 (h.symm.trans hh)
        simp [Dict.lookup, h2, h3]
    · rw [if_neg h]
      simp only [Dict.lookup, ih]
      by_cases h2 : kv.1 = a
      · have h3 : ¬ k = a := fun hh => h (h2.trans hh.symm)
        simp [h2, h3]
      · simp [h2]

theorem addTileStep_items (img : ImageBuf)
    (acc : List ((Int × Int) × TileBmp) × TileCache (Int × Int) TileBmp × List (Int × Int))
    (key : Int × Int) :
    (addTileStep img acc key).1 = acc.1 ∨
    ∃ pix, (addTileStep img acc key).1 = Dict.insertD key pix acc.1 := by
  unfold addTileStep
  split
  · exact Or.inl rfl
  · dsimp only
    cases hg : (acc.2.1.get key).1 with
    | some pix => exact Or.inr ⟨pix, rfl⟩
    | none =>
      cases hm : makeTilePixmap img key with
      | none => exact Or.inl rfl
      | some pix => exact Or.inr ⟨pix, rfl⟩

theorem addTileStep_present_mono (img : ImageBuf)
    (acc : List ((Int × Int) × TileBmp) × TileCache (Int × Int) TileBmp × List (Int × Int))
    (key k : Int × Int) (h : (Dict.lookup k acc.1).isSome = true) :
    (Dict.lookup k (addTileStep img acc key).1).isSome = true := by
  rcases addTileStep_items img acc key with h1 | ⟨pix, h1⟩ <;> rw [h1]
  · exact h
  · rw [Dict.lookup_insertD]
    split
    · rfl
    · exact h

theorem addTileStep_present_self (img : ImageBuf)
    (acc : List ((Int × Int) × TileBmp) × TileCache (Int × Int) TileBmp × List (Int × Int))
    (key : Int × Int) (hmk : makeTilePixmap img key ≠ none) :
    (Dict.lookup key (addTileStep img acc key).1).isSome = true := by
  unfold addTileStep
  split
  · rename_i h
    exact h
  · dsimp only
    cases hg : (acc.2.1.get key).1 with
    | some pix => simp [Dict.lookup_insertD]
    | none =>
      cases hm : makeTilePixmap img key with
      | none => exact absurd hm hmk
      | some pix => simp [Dict.lookup_insertD]

theorem foldl_addTile_present_mono (img : ImageBuf) (l : List (Int × Int)) :
    ∀ acc (k : Int × Int), (Dict.lookup k acc.1).isSome = true →
      (Dict.lookup k (l.foldl (addTileStep img) acc).1).isSome = true := by
  induction l with
  | nil => exact fun _ _ h => h
  | cons a rest ih =>
    intro acc k h
    rw [List.foldl_cons]
    exact ih _ k (addTileStep_present_mono img acc a k h)

theorem foldl_addTile_present (img : ImageBuf) (l : List (Int × Int)) :
    ∀ acc (k : Int × Int), k ∈ l → (∀ k2 ∈ l, makeTilePixmap img k2 ≠ none) →
      (Dict.lookup k (l.foldl (addTileStep img) acc).1).isSome = true := by
  induction l with
  | nil =>
    intro acc k h _
    exact absurd h (List.not_mem_nil k)
  | cons a rest ih =>
    intro acc k hk hmk
    rw [List.foldl_cons]
    rcases List.mem_cons.mp hk with hka | hk2
    · rw [hka]
      exact foldl_addTile_present_mono img rest _ a
        (addTileStep_present_self img acc a (hmk a (List.mem_cons_self a rest)))
    · exact ih _ k hk2 (fun k2 h2 => hmk k2 (List.mem_cons_of_mem a h2))

theorem addTileStep_keys_sub (img : ImageBuf)
    (acc : List ((Int × Int) × TileBmp) × TileCache (Int × Int) TileBmp × List (Int × Int))
    (key a : Int × Int) (h : a ∈ ((addTileStep img acc key).1).map Prod.fst) :
    a ∈ (acc.1).map Prod.fst ∨ a = key := by
  rcases addTileStep_items img acc key with h1 | ⟨pix, h1⟩ <;> rw [h1] at h
  · exact Or.inl h
  · rcases (Dict.mem_keys_insertD key pix acc.1 a).mp h with h2 | h2
    · exact Or.inr h2
    · exact Or.inl h2

theorem foldl_addTile_keys_sub (img : ImageBuf) (l : List (Int × Int)) :
    ∀ acc (a : Int × Int), a ∈ ((l.foldl (addTileStep img) acc).1).map Prod.fst →
      a ∈ (acc.1).map Prod.fst ∨ a ∈ l := by
  induction l with
  | nil => exact fun _ _ h => Or.inl h
  | cons key rest ih =>
    intro acc a h
    rw [List.foldl_cons] at h
    rcases ih _ a h with h2 | h2
    · rcases addTileStep_keys_sub img acc key a h2 with h3 | h3
      · exact Or.inl h3
      · exact Or.inr (h3 ▸ List.mem_cons_self key rest)
    · exact Or.inr (List.mem_cons_of_mem key h2)

theorem foldl_addTile_fix (img : ImageBuf) (l : List (Int × Int)) :
    ∀ acc, (∀ k ∈ l, (Dict.lookup k acc.1).isSome = true) →
      l.foldl (addTileStep img) acc = acc := by
  induction l with
  | nil => exact fun _ _ => rfl
  | cons key rest ih =>
    intro acc h
    rw [List.foldl_cons]
    have hstep : addTileStep img acc key = acc := by
      unfold addTileStep
      rw [if_pos (h key (List.mem_cons_self key rest))]
    rw [hstep]
    exact ih _ (fun k hk => h k (List.mem_cons_of_mem key hk))

theorem mem_intRange {a b x : Int} : x ∈ intRange a b ↔ a ≤ x ∧ x ≤ b := by
  constructor
  · intro h
    unfold intRange at h
    obtain ⟨i, hi, hx⟩ := List.mem_map.mp h
    rw [List.mem_range] at hi
    omega
  · rintro ⟨h1, h2⟩
    unfold intRange
    apply List.mem_map.mpr
    refine ⟨(x - a).toNat, ?_, ?_⟩
    · rw [List.mem_range]
      omega
    · omega

theorem mem_requiredList {st : ViewState} {k : Int × Int} :
    k ∈ requiredList st ↔
      ((visible_tile_range st 1).1 ≤ k.1 ∧ k.1 ≤ (visible_tile_range st 1).2.1 ∧
       (visible_tile_range st 1).2.2.1 ≤ k.2 ∧ k.2 ≤ (visible_tile_range st 1).2.2.2) := by
  unfold requiredList
  simp only [List.mem_flatMap, List.mem_map, mem_intRange]
  constructor
  · rintro ⟨ty, ⟨hy1, hy2⟩, tx, ⟨hx1, hx2⟩, rfl⟩
    exact ⟨hx1, hx2, hy1, hy2⟩
  · rintro ⟨hx1, hx2, hy1, hy2⟩
    exact ⟨k.2, ⟨hy1, hy2⟩, k.1, ⟨hx1, hx2⟩, rfl⟩

theorem visible_tile_range_bounds {st : ViewState} {img : ImageBuf}
    (him : st.orig_qimage = some img) :
    0 ≤ (visible_tile_range st 1).1 ∧
    (visible_tile_range st 1).2.1 ≤ ((img.w : Int) - 1) / TILE_ORIG_PX ∧
    0 ≤ (visible_tile_range st 1).2.2.1 ∧
    (visible_tile_range st 1).2.2.2 ≤ ((img.h : Int) - 1) / TILE_ORIG_PX := by
  unfold visible_tile_range
  rw [him]
  exact ⟨le_max_left 0 _, min_le_left _ _, le_max_left 0 _, min_le_left _ _⟩

theorem make_ne_none_of_mem_required {st : ViewState} {img : ImageBuf}
    (him : st.orig_qimage = some img) {k : Int × Int} (hk : k ∈ requiredList st) :
    makeTilePixmap img k ≠ none := by
  obtain ⟨hx1, hx2, hy1, hy2⟩ := mem_requiredList.mp hk
  obtain ⟨b1, b2, b3, b4⟩ := visible_tile_range_bounds him
  have hx0 : 0 ≤ k.1 := le_trans b1 hx1
  have hxq : k.1 ≤ ((img.w : Int) - 1) / TILE_ORIG_PX := le_trans hx2 b2
  have hy0 : 0 ≤ k.2 := le_trans b3 hy1
  have hyq : k.2 ≤ ((img.h : Int) - 1) / TILE_ORIG_PX := le_trans hy2 b4
  unfold makeTilePixmap
  simp only [TILE_ORIG_PX, PIXEL_CELL] at *
  split
  · rename_i hcond
    exfalso
    omega
  · split
    · rename_i hcond2
      exfalso
      omega
    · simp

/-- C8: the visible-tile reconciliation is idempotent: immediately running
_update_visible_tiles a second time with an unchanged viewport, transform
and image removes zero tiles, adds zero tiles, and leaves the state
exactly as the first run left it. -/
theorem visible_tile_update_idempotent (st : ViewState) :
    updateVisibleTilesDiff (updateVisibleTiles st) = (updateVisibleTiles st, [], []) := by
  cases him : st.orig_qimage with
  | none =>
    have h1 : updateVisibleTiles st = st := by
      unfold updateVisibleTiles updateVisibleTilesDiff
      rw [him]
    rw [h1]
    unfold updateVisibleTilesDiff
    rw [him]
  | some img =>
    cases hpm : st.pixel_mode with
    | false =>
      have h1 : updateVisibleTiles st = st := by
        unfold updateVisibleTiles updateVisibleTilesDiff
        rw [him, hpm]
      rw [h1]
      unfold updateVisibleTilesDiff
      rw [him, hpm]
    | true =>
      have hupd : updateVisibleTiles st =
          { st with
            tile_items := ((requiredList st).foldl (addTileStep img)
              (st.tile_items.filter fun kv => decide (kv.1 ∈ requiredList st),
               st.tile_cache, [])).1,
            tile_cache := ((requiredList st).foldl (addTileStep img)
              (st.tile_items.filter fun kv => decide (kv.1 ∈ requiredList st),
               st.tile_cache, [])).2.1 } := by
        unfold updateVisibleTiles updateVisibleTilesDiff
        rw [him, hpm]
      set R := (requiredList st).foldl (addTileStep img)
        (st.tile_items.filter fun kv => decide (kv.1 ∈ requiredList st),
         st.tile_cache, []) with hR
      have hreq : ∀ k ∈ requiredList st, (Dict.lookup k R.1).isSome = true := by
        intro k hk
        exact foldl_addTile_present img (requiredList st) _ k hk
          (fun k2 h2 => make_ne_none_of_mem_required him h2)
      have hsub : ∀ kv ∈ R.1, kv.1 ∈ requiredList st := by
        intro kv hkv
        have hmem : kv.1 ∈ (R.1).map Prod.fst := List.mem_map.mpr ⟨kv, hkv, rfl⟩
        rcases foldl_addTile_keys_sub img (requiredList st) _ kv.1 hmem with h2 | h2
        · obtain ⟨kv2, hkv2, hkv2e⟩ := List.mem_map.mp h2
          have h4 := List.mem_filter.mp hkv2
          have h3 : kv2.1 ∈ requiredList st := of_decide_eq_true h4.2
          rwa [hkv2e] at h3
        · exact h2
      have hb : (R.1.filter fun kv => decide (kv.1 ∈ requiredList st)) = R.1 :=
        List.filter_eq_self.mpr (fun kv hkv => decide_eq_true (hsub kv hkv))
      have ha : (R.1.filter fun kv => decide (kv.1 ∉ requiredList st)) = [] :=
        List.filter_eq_nil_iff.mpr
          (fun kv hkv => by simp [decide_eq_true_eq, hsub kv hkv])
      have hc : (requiredList st).foldl (addTileStep img) (R.1, R.2.1, []) = (R.1, R.2.1, []) :=
        foldl_addTile_fix img (requiredList st) _ hreq
      have hreql2 : requiredList
          { st with
            orig_qimage := some img
            pixel_mode := true
            tile_items := R.1
            tile_cache := R.2.1 } = requiredList st := by
        unfold requiredList visible_tile_range
        rw [him]
        rfl
      rw [hupd]
      unfold updateVisibleTilesDiff
      rw [him, hpm]
      dsimp only
      simp only [hreql2]
      rw [hb, hc]
      dsimp only
      rw [ha]
      rfl

/-- Witness for C3 at the empty operation sequence: the empty cache holds
at most 200 entries. -/
theorem tile_cache_bounded_lru_witness :
    (runCacheOps (TileCache.empty CACHE_MAX_TILES)
      ([] : List (CacheOp (Int × Int) TileBmp))).cache.length ≤ CACHE_MAX_TILES :=
  (tile_cache_bounded_lru []).1

/-- Witness for C6 at concrete images: the per-axis sample count of a
150-wide image is at most 199, the uniformly gray 50 by 50 image is
classified grayscale, and the image with a non-gray sampled pixel is not. -/
theorem grayscale_classification_characterized_witness :
    sampleCount (ImageBuf.mk 150 150 (fun _ _ => (0, 0, 0))).w ≤ 199 ∧
    detect_grayscale gray50 = true ∧
    detect_grayscale color50 = false :=
  ⟨(grayscale_classification_characterized (ImageBuf.mk 150 150 (fun _ _ => (0, 0, 0)))).1,
   (grayscale_classification_characterized (ImageBuf.mk 150 150 (fun _ _ => (0, 0, 0)))).2.2.2.1,
   (grayscale_classification_characterized (ImageBuf.mk 150 150 (fun _ _ => (0, 0, 0)))).2.2.2.2⟩

/-- Witness for C8 at a concrete pixel-mode state with a loaded image. -/
theorem visible_tile_update_idempotent_witness :
    updateVisibleTilesDiff (updateVisibleTiles (baseState (some img10red) true)) =
      (updateVisibleTiles (baseState (some img10red) true), [], []) :=
  visible_tile_update_idempotent (baseState (some img10red) true)

end ImageWatch
